import Mathlib

/-!
Shallow embedding of the lasercube-rs driver (src/lib.rs, src/animation.rs)
for checking its natural-language specification.

Conventions of the embedding:
* machine integers (`u8`, `u16`, `u32`) are `Nat`, with explicit bounds or
  reductions `% 2 ^ w` where overflow matters;
* `f64` values are modelled by `F64`: either one of the IEEE special values
  NaN / +inf / -inf, or a finite value represented exactly as a rational
  (the arithmetic `4095.0 * (f + 1.0) / 2.0` performed by the source on a
  clamped input is exact at every point the development evaluates it);
* code that can panic (indexing, `unwrap`) returns `Option`, with `none`
  for the panic; fallible I/O paths return `Except`.
-/

namespace Lasercube

/-! ### Coordinate quantization (src/lib.rs, `impl From<f64> for XY`) -/

/-- Model of an `f64` value: NaN, the two infinities, or an exact finite
rational. -/
inductive F64 where
  | nan : F64
  | inf : F64
  | neginf : F64
  | fin (q : ℚ) : F64
deriving DecidableEq

/-- Rust `f.clamp (-1.0, 1.0)` on finite values: if `f < -1` the result is
`-1`, if `f > 1` the result is `1`, otherwise `f` itself. -/
def clampQ (q : ℚ) : ℚ := max (-1) (min 1 q)

/-- Rust `f64::clamp (-1.0, 1.0)`: NaN propagates, `+inf` clamps to the upper
bound `1`, `-inf` clamps to the lower bound `-1`, finite values clamp as
`clampQ`. -/
def F64.clamp11 : F64 → F64
  | .nan => .nan
  | .inf => .fin 1
  | .neginf => .fin (-1)
  | .fin q => .fin (clampQ q)

/-- The arithmetic `4095.0 * (f + 1.0) / 2.0` of the source, on the model:
NaN propagates, infinities keep their sign (the multiplier `4095` and the
divisor `2` are positive), finite arithmetic is exact. -/
def F64.quantExpr : F64 → F64
  | .nan => .nan
  | .inf => .inf
  | .neginf => .neginf
  | .fin q => .fin (4095 * (q + 1) / 2)

/-- Rust saturating float-to-integer cast `as u16`: NaN casts to `0`,
`-inf` and every value below `0` to `0`, `+inf` and every value above
`65535` to `65535`, and a finite in-range value truncates toward zero.
On a non-negative rational, truncation toward zero is the floor, and
`Int.toNat ∘ Int.floor` also sends every rational below `0` to `0`,
matching the saturation. -/
def F64.asU16 : F64 → ℕ
  | .nan => 0
  | .inf => 65535
  | .neginf => 0
  | .fin q => min 65535 (Int.toNat ⌊q⌋)

/-- Model of `XY::from (f: f64)` (src/lib.rs lines 31-36):
`let f = f.clamp (-1., 1.); XY ((4095. * (f + 1.0) / 2.0) as u16)`. -/
def XY.fromF64 (f : F64) : ℕ := (f.clamp11.quantExpr).asU16

/-- Quantization of a finite coordinate, the common path of `XY.fromF64`. -/
def quantize (q : ℚ) : ℕ := XY.fromF64 (F64.fin q)

/-- Reading of the spec's quantization formula `q = round (4095 * (f + 1) / 2)`
(§4.3), with `round` the usual rounding to the nearest integer: clamp, then
round. Used only to compare the spec's words with the source. -/
def quantizeRoundSpec (q : ℚ) : ℕ := Int.toNat (round (4095 * (clampQ q + 1) / 2))

/-! ### Sample encoding (src/lib.rs, `LaserdockSample`) -/

/-- Model of the `LaserdockSample` record (src/lib.rs lines 38-45): four
16-bit fields `rg`, `b`, `x`, `y`, kept as `Nat`. -/
structure LaserdockSample where
  rg : ℕ
  b : ℕ
  x : ℕ
  y : ℕ
deriving DecidableEq, Repr

/-- Model of `LaserdockSample::new (r, g, b, x, y)` (src/lib.rs lines 47-56):
`rg = r as u16 | (g as u16) << 8`, `b = b as u16`, coordinates quantized by
`XY::from`. The arguments `r g b` stand for `u8` values. -/
def LaserdockSample.new (r g b : ℕ) (x y : F64) : LaserdockSample where
  rg := r ||| (g <<< 8)
  b := b
  x := XY.fromF64 x
  y := XY.fromF64 y

/-- Little-endian bytes of one 16-bit field. -/
def leBytes16 (v : ℕ) : List ℕ := [v % 256, v / 256 % 256]

/-- Wire bytes of a sample: the four fields `rg`, `b`, `x`, `y` in order, each as
two little-endian bytes (`repr(C)` layout serialized by `bytemuck::cast_slice`
on the little-endian target). -/
def LaserdockSample.toBytes (s : LaserdockSample) : List ℕ :=
  leBytes16 s.rg ++ leBytes16 s.b ++ leBytes16 s.x ++ leBytes16 s.y

/-! ### Animation sequencing (src/animation.rs, `Animation::new`) -/

/-- Blanked copy of a sample: `next_start.rg = 0; next_start.b = 0`
(src/animation.rs lines 30-32); the position fields stay unchanged. -/
def blankSample (s : LaserdockSample) : LaserdockSample := { s with rg := 0, b := 0 }

/-- Model of the `Animation` struct: the frames (each a list of samples) and
the inter-frame delay in milliseconds. -/
structure Animation where
  frames : List (List LaserdockSample)
  delay_ms : ℕ
deriving DecidableEq

/-- One iteration `i` of the fixup loop body of `Animation::new`
(src/animation.rs lines 29-42), over the current state of `frames`:
read `next = &frames[(i + 1) % num_frames]`, take its first sample
(`next.points[0]`, panic → `none` when absent), blank it, read
`cur = &mut frames[i % num_frames]`, take its last sample
(`cur.points.last().unwrap()`, panic → `none` when absent), and push two
copies of `cur_end` followed by two copies of `next_start` onto `cur`. -/
def fixupStep (num_frames : ℕ) (frames : List (List LaserdockSample)) (i : ℕ) :
    Option (List (List LaserdockSample)) := do
  let next ← frames[(i + 1) % num_frames]?
  let nxt0 ← next.head?
  let next_start := blankSample nxt0
  let cur ← frames[i % num_frames]?
  let cur_end ← cur.getLast?
  pure (frames.set (i % num_frames) (cur ++ [cur_end, cur_end, next_start, next_start]))

/-- Sequencing of the fixup loop: run `fixupStep` at each index of `is` in
order, threading the frames; a panic (`none`) in any iteration aborts the
loop. -/
def fixupLoop (num_frames : ℕ) (is : List ℕ)
    (frames : List (List LaserdockSample)) : Option (List (List LaserdockSample)) :=
  match is with
  | [] => some frames
  | i :: rest =>
    match fixupStep num_frames frames i with
    | none => none
    | some fs => fixupLoop num_frames rest fs

/-- The whole fixup pass of `Animation::new`: `for i in 0..=num_frames`
(src/animation.rs line 28) runs the body at `i = 0, 1, ..., num_frames`,
that is `num_frames + 1` times. -/
def fixupAll (frames : List (List LaserdockSample)) : Option (List (List LaserdockSample)) :=
  fixupLoop frames.length (List.range (frames.length + 1)) frames

/-- Model of `Animation::new (frames, delay_ms)` (src/animation.rs lines
25-47): when `num_frames > 1` run the fixup pass (`none` models a panic),
otherwise keep the frames untouched. -/
def Animation.new (frames : List (List LaserdockSample)) (delay_ms : ℕ) : Option Animation :=
  if frames.length > 1 then
    (fixupAll frames).map fun fs => { frames := fs, delay_ms := delay_ms }
  else
    some { frames := frames, delay_ms := delay_ms }

/-! ### Control channel (src/lib.rs, `LaserCube`) -/

/-- Error taxonomy of the control exchange (src/lib.rs lines 116-126). -/
inductive BusError where
  | IncompleteWrite (written expected : ℕ)
  | IncompleteResponse (read expected : ℕ)
  | UnexpectedContent (actual expected : ℕ)
deriving DecidableEq

/-- Fixed control response length `LaserCube::RECV_BUF_LEN` (src/lib.rs
line 132). -/
def RECV_BUF_LEN : ℕ := 64

/-- Model of the validation logic of `LaserCube::write_buf` (src/lib.rs lines
167-194). `written` is the byte count the bulk write reported, `bufLen` the
request length, `read` the byte count the bulk read reported and `recv` the
contents of the 64-byte receive buffer afterwards. -/
def LaserCube.write_buf (written bufLen read : ℕ) (recv : List ℕ) :
    Except BusError (List ℕ) :=
  if written ≠ bufLen then .error (.IncompleteWrite written bufLen)
  else if read ≠ RECV_BUF_LEN then .error (.IncompleteResponse read RECV_BUF_LEN)
  else if recv.getD 1 0 ≠ 0 then .error (.UnexpectedContent (recv.getD 1 0) 0)
  else .ok recv

/-- The `SetCommand` registry (src/lib.rs lines 66-70). -/
inductive SetCommand where
  | ClearRingBuffer
  | EnableOutput
  | DacRate
deriving DecidableEq

/-- Wire byte of each `SetCommand` variant. -/
def SetCommand.code : SetCommand → ℕ
  | .ClearRingBuffer => 0x8d
  | .EnableOutput => 0x80
  | .DacRate => 0x82

/-- Rust `Ord::clamp (self, min, max)` on `u32`: it asserts `min <= max`
(a violation panics, modelled `none`); then a value below `min` becomes
`min`, a value above `max` becomes `max`, anything else is unchanged. -/
def rustClamp (x lo hi : ℕ) : Option ℕ :=
  if lo ≤ hi then some (if x < lo then lo else if hi < x then hi else x) else none

/-- Model of `LaserCube::set_dac_rate` (src/lib.rs lines 204-208): the two
reads `min_dac_rate()` and `max_dac_rate()` are represented by their decoded
results `min_rate` and `max_rate`; the function then issues
`write_u32 (SetCommand::DacRate, rate.clamp (min, max))`, modelled as the
command/value pair handed to `write_u32`. -/
def set_dac_rate (min_rate max_rate rate : ℕ) : Option (SetCommand × ℕ) :=
  (rustClamp rate min_rate max_rate).map fun c => (SetCommand.DacRate, c)

/-- What the device itself would answer to the `OutputEnabled` (0x81) query
after the enable command — the device-side truth the spec's verification step
is about. -/
structure DeviceReport where
  outputEnabledReply : Bool
deriving DecidableEq

/-- Model of `LaserCube::output_enabled` (src/lib.rs lines 292-294): the
source body is `Ok(true)` — it never issues the `OutputEnabled` query and
ignores the device's state entirely. -/
def output_enabled (_dev : DeviceReport) : Bool := true

/-- Failure of the verification step at session open. -/
inductive OpenError where
  | outputEnableFailed
deriving DecidableEq

/-- The configuration commands `LaserCube::new` sends after resolving the
endpoints (src/lib.rs lines 270-271): `clear_ringbuffer()` =
`write_u8 (ClearRingBuffer, 0)` then `enable_output()` =
`write_u8 (EnableOutput, 1)`. -/
def bringupCommands : List (SetCommand × ℕ) :=
  [(SetCommand.ClearRingBuffer, 0), (SetCommand.EnableOutput, 1)]

/-- Model of the tail of `LaserCube::new` (src/lib.rs lines 270-278): send
the bring-up commands, then check `!output_enabled()?` and fail when it
reports false. On success the value is the list of commands sent. -/
def laserCubeOpenCheck (dev : DeviceReport) : Except OpenError (List (SetCommand × ℕ)) :=
  if output_enabled dev = false then Except.error OpenError.outputEnableFailed
  else Except.ok bringupCommands

/-! ### Helper lemmas on quantization -/

theorem quantize_def (q : ℚ) :
    quantize q = min 65535 (Int.toNat ⌊4095 * (clampQ q + 1) / 2⌋) := rfl

theorem neg_one_le_clampQ (q : ℚ) : -1 ≤ clampQ q := le_max_left _ _

theorem clampQ_le_one (q : ℚ) : clampQ q ≤ 1 :=
  max_le (by norm_num) (min_le_left _ _)

theorem floor_quant_le (q : ℚ) : ⌊4095 * (clampQ q + 1) / 2⌋ ≤ 4095 := by
  have h1 : clampQ q ≤ 1 := clampQ_le_one q
  have h2 : (4095 : ℚ) * (clampQ q + 1) / 2 ≤ 4095 := by linarith
  calc ⌊4095 * (clampQ q + 1) / 2⌋ ≤ ⌊(4095 : ℚ)⌋ := Int.floor_le_floor h2
    _ = 4095 := by norm_num

theorem quantize_eq_toNat_floor (q : ℚ) :
    quantize q = Int.toNat ⌊4095 * (clampQ q + 1) / 2⌋ := by
  rw [quantize_def]
  refine min_eq_right ?_
  have := floor_quant_le q
  omega

theorem quantize_le_4095 (q : ℚ) : quantize q ≤ 4095 := by
  rw [quantize_eq_toNat_floor]
  have := floor_quant_le q
  omega

theorem clampQ_idem (q : ℚ) : clampQ (clampQ q) = clampQ q := by
  have h1 := neg_one_le_clampQ q
  have h2 := clampQ_le_one q
  show max (-1) (min 1 (clampQ q)) = clampQ q
  rw [min_eq_right h2, max_eq_right h1]

theorem quantize_mono {q1 q2 : ℚ} (h : q1 ≤ q2) : quantize q1 ≤ quantize q2 := by
  have hc : clampQ q1 ≤ clampQ q2 := max_le_max le_rfl (min_le_min le_rfl h)
  have he : (4095 : ℚ) * (clampQ q1 + 1) / 2 ≤ 4095 * (clampQ q2 + 1) / 2 := by
    linarith
  rw [quantize_def, quantize_def]
  exact min_le_min le_rfl (Int.toNat_le_toNat (Int.floor_le_floor he))

theorem quantize_zero : quantize 0 = 2047 := by
  rw [quantize_eq_toNat_floor]
  simp only [clampQ]
  norm_num
  rfl

theorem quantize_one : quantize 1 = 4095 := by
  rw [quantize_eq_toNat_floor]
  simp only [clampQ]
  norm_num
  rfl

theorem quantize_neg_one : quantize (-1) = 0 := by
  rw [quantize_eq_toNat_floor]
  simp only [clampQ]
  norm_num

theorem clampQ_of_one_lt {q : ℚ} (h : 1 < q) : clampQ q = 1 := by
  unfold clampQ
  rw [min_eq_left h.le, max_eq_right (by norm_num)]

theorem clampQ_of_lt_neg_one {q : ℚ} (h : q < -1) : clampQ q = -1 := by
  unfold clampQ
  rw [min_eq_right (by linarith), max_eq_left h.le]

theorem clampQ_one : clampQ 1 = 1 := by
  unfold clampQ
  rw [min_self, max_eq_right (by norm_num : (-1 : ℚ) ≤ 1)]

theorem clampQ_neg_one : clampQ (-1) = -1 := by
  unfold clampQ
  rw [min_eq_right (by norm_num : (-1 : ℚ) ≤ 1), max_self]

theorem quantize_clamp (g : ℚ) : quantize g = quantize (clampQ g) := by
  rw [quantize_def, quantize_def, clampQ_idem]

/-! ### Helper lemmas on the fixup pass -/

theorem fixupStep_eq_some {n : ℕ} {fs fs' : List (List LaserdockSample)} {i : ℕ}
    (h : fixupStep n fs i = some fs') :
    ∃ next nxt0 cur cur_end,
      fs[(i + 1) % n]? = some next ∧ next.head? = some nxt0 ∧
      fs[i % n]? = some cur ∧ cur.getLast? = some cur_end ∧
      fs' = fs.set (i % n)
        (cur ++ [cur_end, cur_end, blankSample nxt0, blankSample nxt0]) := by
  unfold fixupStep at h
  simp only [Option.bind_eq_bind, Option.bind_eq_some, Option.pure_def,
    Option.some.injEq] at h
  obtain ⟨next, hnext, nxt0, hhead, cur, hcur, cur_end, hlast, hset⟩ := h
  exact ⟨next, nxt0, cur, cur_end, hnext, hhead, hcur, hlast, hset.symm⟩

theorem fixupLoop_none_of_empty {n j : ℕ} (is : List ℕ) :
    ∀ fs : List (List LaserdockSample),
      fs.length = n → fs[j]? = some [] → (∃ i ∈ is, (i + 1) % n = j) →
      fixupLoop n is fs = none := by
  induction is with
  | nil =>
    intro fs _ _ hex
    obtain ⟨i, hi, _⟩ := hex
    cases hi
  | cons i rest ih =>
    intro fs hlen hj hex
    unfold fixupLoop
    cases hstep : fixupStep n fs i with
    | none => rfl
    | some fs' =>
      obtain ⟨next, nxt0, cur, cur_end, hnext, hhead, hcur, hlast, hset⟩ :=
        fixupStep_eq_some hstep
      have hnextj : (i + 1) % n ≠ j := by
        intro hEq
        rw [hEq, hj] at hnext
        injection hnext with hnext
        subst hnext
        simp at hhead
      have hcurj : i % n ≠ j := by
        intro hEq
        rw [hEq, hj] at hcur
        injection hcur with hcur
        subst hcur
        simp at hlast
      have hj' : fs'[j]? = some [] := by
        rw [hset, List.getElem?_set_ne hcurj, hj]
      have hlen' : fs'.length = n := by
        rw [hset, List.length_set, hlen]
      obtain ⟨i0, hi0mem, hi0⟩ := hex
      have hi0rest : i0 ∈ rest := by
        rcases List.mem_cons.mp hi0mem with hEq | hMem
        · subst hEq
          exact absurd hi0 hnextj
        · exact hMem
      exact ih fs' hlen' hj' ⟨i0, hi0rest, hi0⟩

/-! ### Claim theorems -/

/-- Claim C1 (code bug evidence). Building the spec's §8 scenario — frame 0
with 3 samples of color `(10, 0, 0)`, frame 1 with 2 samples of color
`(0, 20, 0)` (`rg = 20 <<< 8 = 5120`), delay 15 ms — yields a frame 0 of
11 samples, not the `3 + 4 = 7` the claim states: the loop
`for i in 0..=num_frames` runs one extra iteration that rewrites frame 0 a
second time. Frame 1 does get `2 + 4 = 6` samples. -/
theorem animation_new_frame0_double_fixup :
    (Animation.new
        [[⟨10, 0, 100, 101⟩, ⟨10, 0, 102, 103⟩, ⟨10, 0, 104, 105⟩],
         [⟨5120, 0, 200, 201⟩, ⟨5120, 0, 202, 203⟩]] 15).map
      (fun a => a.frames.map List.length) = some [11, 6] ∧
    (11 : ℕ) ≠ 3 + 4 := by
  exact ⟨by decide, by decide⟩

/-- Claim C2 (code bug evidence). On the two one-sample frames
`[⟨257, 1, 100, 200⟩]` and `[⟨514, 2, 300, 400⟩]`, the extra iteration
`i = num_frames` of the fixup loop reads frame 0's last sample *after* the
iteration `i = 0` rewrite: the value it appends as "current last" is
`blankSample ⟨514, 2, 300, 400⟩ = ⟨0, 0, 300, 400⟩` — a sample added by the
earlier fixup — and not frame 0's original last sample `⟨257, 1, 100, 200⟩`.
The full output below shows frame 0 ending in six blanked copies. -/
theorem animation_new_fixup_reads_rewritten_tail :
    fixupAll [[⟨257, 1, 100, 200⟩], [⟨514, 2, 300, 400⟩]] =
      some [[⟨257, 1, 100, 200⟩, ⟨257, 1, 100, 200⟩, ⟨257, 1, 100, 200⟩,
             ⟨0, 0, 300, 400⟩, ⟨0, 0, 300, 400⟩, ⟨0, 0, 300, 400⟩,
             ⟨0, 0, 300, 400⟩, ⟨0, 0, 300, 400⟩, ⟨0, 0, 300, 400⟩],
            [⟨514, 2, 300, 400⟩, ⟨514, 2, 300, 400⟩, ⟨514, 2, 300, 400⟩,
             ⟨0, 0, 100, 200⟩, ⟨0, 0, 100, 200⟩]] ∧
    (⟨0, 0, 300, 400⟩ : LaserdockSample) = blankSample ⟨514, 2, 300, 400⟩ ∧
    (⟨0, 0, 300, 400⟩ : LaserdockSample) ≠ ⟨257, 1, 100, 200⟩ := by
  exact ⟨by decide, by decide, by decide⟩

/-- Claim C3. The validation of a control exchange is applied in order:
a short write yields `IncompleteWrite {written, expected}`; otherwise a read
of fewer than 64 bytes yields `IncompleteResponse {read, 64}` and never a
successful decode; otherwise a nonzero response byte at offset 1 yields
`UnexpectedContent {actual, 0}` regardless of the rest of the payload;
otherwise the exchange succeeds. -/
theorem write_buf_validation (written bufLen read : ℕ) (recv : List ℕ) :
    (written ≠ bufLen →
      LaserCube.write_buf written bufLen read recv =
        Except.error (BusError.IncompleteWrite written bufLen)) ∧
    (written = bufLen → read < RECV_BUF_LEN →
      LaserCube.write_buf written bufLen read recv =
        Except.error (BusError.IncompleteResponse read RECV_BUF_LEN)) ∧
    (written = bufLen → read = RECV_BUF_LEN → recv.getD 1 0 ≠ 0 →
      LaserCube.write_buf written bufLen read recv =
        Except.error (BusError.UnexpectedContent (recv.getD 1 0) 0)) ∧
    (written = bufLen → read = RECV_BUF_LEN → recv.getD 1 0 = 0 →
      LaserCube.write_buf written bufLen read recv = Except.ok recv) := by
  refine ⟨fun h1 => ?_, fun h1 h2 => ?_, fun h1 h2 h3 => ?_, fun h1 h2 h3 => ?_⟩
  · rw [LaserCube.write_buf, if_pos h1]
  · rw [LaserCube.write_buf, if_neg (by omega), if_pos (by omega)]
  · rw [LaserCube.write_buf, if_neg (by omega), if_neg (by omega), if_pos h3]
  · rw [LaserCube.write_buf, if_neg (by omega), if_neg (by omega),
      if_neg (by omega)]

/-- Witness for claim C3: each of the four branches evaluated on a concrete
exchange. -/
theorem write_buf_validation_witness :
    (3 : ℕ) ≠ 5 ∧
    LaserCube.write_buf 3 5 64 [] = Except.error (BusError.IncompleteWrite 3 5) ∧
    (63 : ℕ) < RECV_BUF_LEN ∧
    LaserCube.write_buf 5 5 63 [] =
      Except.error (BusError.IncompleteResponse 63 RECV_BUF_LEN) ∧
    LaserCube.write_buf 5 5 64 [0, 7] =
      Except.error (BusError.UnexpectedContent 7 0) ∧
    LaserCube.write_buf 5 5 64 [0, 0, 9] = Except.ok [0, 0, 9] :=
  ⟨by decide, (write_buf_validation 3 5 64 []).1 (by decide),
   by decide, (write_buf_validation 5 5 63 []).2.1 rfl (by decide),
   (write_buf_validation 5 5 64 [0, 7]).2.2.1 rfl rfl (by decide),
   (write_buf_validation 5 5 64 [0, 0, 9]).2.2.2 rfl rfl (by decide)⟩

/-- Claim C4 (counterexample). The spec's quantization law uses `round`;
rounding `4095 * (0 + 1) / 2 = 2047.5` to the nearest integer gives `2048`,
but the source's `as u16` cast truncates and produces `2047` at `f = 0`. -/
theorem xy_from_f64_round_counterexample :
    quantize 0 = 2047 ∧ quantizeRoundSpec 0 = 2048 ∧
    quantize 0 ≠ quantizeRoundSpec 0 := by
  have h2 : quantizeRoundSpec 0 = 2048 := by
    simp only [quantizeRoundSpec, clampQ, round_eq]
    norm_num
    rfl
  exact ⟨quantize_zero, h2, by rw [quantize_zero, h2]; omega⟩

/-- Claim C4 as amended. Quantization first clamps the input to `[-1, 1]`
and then maps it by *truncation*: `q = ⌊4095 * (f + 1) / 2⌋` (the value is
non-negative, so truncation toward zero is the floor), producing an integer
in `[0, 4095]`; `f = -1` maps to `0`, `f = 0` maps to `2047`, and `f = 1`
maps to `4095`. -/
theorem xy_from_f64_truncates (f : ℚ) :
    quantize f = Int.toNat ⌊4095 * (clampQ f + 1) / 2⌋ ∧
    quantize f = quantize (clampQ f) ∧
    quantize f ≤ 4095 ∧
    quantize (-1) = 0 ∧ quantize 0 = 2047 ∧ quantize 1 = 4095 :=
  ⟨quantize_eq_toNat_floor f, quantize_clamp f, quantize_le_4095 f,
   quantize_neg_one, quantize_zero, quantize_one⟩

/-- Claim C5. `set_dac_rate (requested)` reads the device's minimum and
maximum DAC rates, clamps the request into `[min, max]` and always issues the
clamped value to the `DacRate` command: below the minimum it writes the
minimum, above the maximum it writes the maximum, in range it writes the
request unchanged — an out-of-range request is never rejected (the result is
always `some ...` when `min ≤ max`). -/
theorem set_dac_rate_clamps (min_rate max_rate rate : ℕ)
    (h : min_rate ≤ max_rate) :
    ∃ v, set_dac_rate min_rate max_rate rate = some (SetCommand.DacRate, v) ∧
      min_rate ≤ v ∧ v ≤ max_rate ∧
      (rate < min_rate → v = min_rate) ∧
      (max_rate < rate → v = max_rate) ∧
      (min_rate ≤ rate → rate ≤ max_rate → v = rate) := by
  refine ⟨if rate < min_rate then min_rate
          else if max_rate < rate then max_rate else rate, ?_, ?_, ?_, ?_, ?_, ?_⟩
  · rw [set_dac_rate, rustClamp, if_pos h]
    rfl
  all_goals split_ifs <;> omega

/-- Witness for claim C5: the spec's own examples with `min = 1000`,
`max = 50000`. -/
theorem set_dac_rate_clamps_witness :
    ((1000 : ℕ) ≤ 50000 ∧
      set_dac_rate 1000 50000 500 = some (SetCommand.DacRate, 1000)) ∧
    set_dac_rate 1000 50000 99999 = some (SetCommand.DacRate, 50000) ∧
    set_dac_rate 1000 50000 20000 = some (SetCommand.DacRate, 20000) := by
  refine ⟨⟨by decide, ?_⟩, ?_, ?_⟩
  · obtain ⟨v, hv, _, _, hlo, _, _⟩ := set_dac_rate_clamps 1000 50000 500 (by decide)
    rw [hlo (by decide)] at hv
    exact hv
  · obtain ⟨v, hv, _, _, _, hhi, _⟩ := set_dac_rate_clamps 1000 50000 99999 (by decide)
    rw [hhi (by decide)] at hv
    exact hv
  · obtain ⟨v, hv, _, _, _, _, hin⟩ := set_dac_rate_clamps 1000 50000 20000 (by decide)
    rw [hin (by decide) (by decide)] at hv
    exact hv

/-- Claim C6 (code bug evidence). A device that would report output *not*
enabled after the enable command (`DeviceReport.outputEnabledReply = false`)
still opens successfully: the session open clears the ring buffer and enables
output, but its verification calls `output_enabled`, whose source body is the
constant `Ok(true)` — the `OutputEnabled` query is never issued — so the
open-failure branch is unreachable, contradicting the claim that such an open
fails with the output-enable-failed error. -/
theorem open_check_ignores_device_report :
    laserCubeOpenCheck ⟨false⟩ = Except.ok bringupCommands ∧
    bringupCommands = [(SetCommand.ClearRingBuffer, 0), (SetCommand.EnableOutput, 1)] :=
  ⟨rfl, rfl⟩

/-- Claim C7. The encoded sample is an 8-byte little-endian record
`[rg:u16][b:u16][x:u16][y:u16]`: the first 16-bit field equals
`r + 256 * g` (that is `r ||| (g <<< 8)`), the second holds `b` alone with
its upper byte zero, and `x`, `y` are the quantized coordinates. -/
theorem laserdock_sample_layout (r g b : ℕ) (x y : F64)
    (hr : r < 256) (hg : g < 256) (hb : b < 256) :
    (LaserdockSample.new r g b x y).rg = r + 256 * g ∧
    (LaserdockSample.new r g b x y).b = b ∧
    (LaserdockSample.new r g b x y).x = XY.fromF64 x ∧
    (LaserdockSample.new r g b x y).y = XY.fromF64 y ∧
    (LaserdockSample.new r g b x y).toBytes =
      [r, g, b, 0] ++ leBytes16 (XY.fromF64 x) ++ leBytes16 (XY.fromF64 y) := by
  have hrg : (LaserdockSample.new r g b x y).rg = r + 256 * g := by
    show r ||| (g <<< 8) = r + 256 * g
    rw [Nat.shiftLeft_eq, Nat.lor_comm, Nat.mul_comm g (2 ^ 8),
      ← Nat.mul_add_lt_is_or (show r < 2 ^ 8 by omega) g]
    ring
  refine ⟨hrg, rfl, rfl, rfl, ?_⟩
  show leBytes16 (LaserdockSample.new r g b x y).rg ++ leBytes16 b ++
      leBytes16 (XY.fromF64 x) ++ leBytes16 (XY.fromF64 y) = _
  rw [hrg]
  simp only [leBytes16, List.append_assoc, List.cons_append, List.nil_append,
    List.cons.injEq]
  refine ⟨by omega, by omega, by omega, by omega, trivial⟩

/-- Witness for claim C7: the layout at `r = 10`, `g = 20`, `b = 30`,
`x = 0.0`, `y = 1.0`. -/
theorem laserdock_sample_layout_witness :
    (10 : ℕ) < 256 ∧ (20 : ℕ) < 256 ∧ (30 : ℕ) < 256 ∧
    (LaserdockSample.new 10 20 30 (F64.fin 0) (F64.fin 1)).toBytes =
      [10, 20, 30, 0] ++ leBytes16 (XY.fromF64 (F64.fin 0)) ++
        leBytes16 (XY.fromF64 (F64.fin 1)) :=
  ⟨by decide, by decide, by decide,
   (laserdock_sample_layout 10 20 30 (F64.fin 0) (F64.fin 1)
     (by decide) (by decide) (by decide)).2.2.2.2⟩

/-- Claim C8. Coordinate quantization is monotonic — `f1 < f2` implies
`quantize f1 ≤ quantize f2` — and clamps out-of-range inputs to the boundary
values: every `f > 1` quantizes like `1`, namely to `4095`, and every
`f < -1` quantizes like `-1`, namely to `0`. -/
theorem quantize_monotone_and_clamped (f1 f2 f : ℚ) :
    (f1 < f2 → quantize f1 ≤ quantize f2) ∧
    (1 < f → quantize f = quantize 1 ∧ quantize f = 4095) ∧
    (f < -1 → quantize f = quantize (-1) ∧ quantize f = 0) := by
  refine ⟨fun h => quantize_mono h.le, fun h => ?_, fun h => ?_⟩
  · have h1 : quantize f = quantize 1 := by
      rw [quantize_clamp f, clampQ_of_one_lt h, ← clampQ_one, ← quantize_clamp 1]
    exact ⟨h1, h1.trans quantize_one⟩
  · have h1 : quantize f = quantize (-1) := by
      rw [quantize_clamp f, clampQ_of_lt_neg_one h, ← clampQ_neg_one,
        ← quantize_clamp (-1)]
    exact ⟨h1, h1.trans quantize_neg_one⟩

/-- Witness for claim C8: monotonicity at `0 < 1` and the spec's clamping
examples `quantize 2 = 4095`, `quantize (-5) = 0`. -/
theorem quantize_monotone_and_clamped_witness :
    ((0 : ℚ) < 1 ∧ quantize 0 ≤ quantize 1) ∧
    ((1 : ℚ) < 2 ∧ quantize 2 = 4095) ∧
    ((-5 : ℚ) < -1 ∧ quantize (-5) = 0) :=
  ⟨⟨by norm_num, (quantize_monotone_and_clamped 0 1 0).1 (by norm_num)⟩,
   ⟨by norm_num, ((quantize_monotone_and_clamped 0 1 2).2.1 (by norm_num)).2⟩,
   ⟨by norm_num, ((quantize_monotone_and_clamped 0 1 (-5)).2.2 (by norm_num)).2⟩⟩

/-- Claim C9. `Animation::new` is not total on inputs of `N ≥ 2` frames that
contain an empty frame: the fixup pass reaches every frame, and at the first
iteration that touches the empty frame it panics (out-of-bounds index on the
next frame's first sample, or `unwrap` of the current frame's absent last
sample), modelled here as the construction returning `none` rather than an
`Animation` or an error. -/
theorem animation_new_empty_frame (fs : List (List LaserdockSample)) (d : ℕ)
    (h2 : 2 ≤ fs.length) (he : [] ∈ fs) : Animation.new fs d = none := by
  obtain ⟨j, hjlt, hjeq⟩ := List.mem_iff_getElem.mp he
  have hj : fs[j]? = some [] := by
    rw [List.getElem?_eq_getElem hjlt, hjeq]
  have hex : ∃ i ∈ List.range (fs.length + 1), (i + 1) % fs.length = j := by
    rcases Nat.eq_zero_or_pos j with hj0 | hjpos
    · refine ⟨fs.length - 1, List.mem_range.mpr (by omega), ?_⟩
      rw [Nat.sub_add_cancel (by omega), Nat.mod_self, hj0]
    · refine ⟨j - 1, List.mem_range.mpr (by omega), ?_⟩
      rw [Nat.sub_add_cancel hjpos]
      exact Nat.mod_eq_of_lt hjlt
  unfold Animation.new
  rw [if_pos (by omega)]
  unfold fixupAll
  rw [fixupLoop_none_of_empty _ fs rfl hj hex]
  rfl

/-- Witness for claim C9: two frames, the first of them empty. -/
theorem animation_new_empty_frame_witness :
    2 ≤ ([[], [⟨1, 2, 3, 4⟩]] : List (List LaserdockSample)).length ∧
    ([] : List LaserdockSample) ∈
      ([[], [⟨1, 2, 3, 4⟩]] : List (List LaserdockSample)) ∧
    Animation.new [[], [⟨1, 2, 3, 4⟩]] 5 = none :=
  ⟨by decide, by decide,
   animation_new_empty_frame [[], [⟨1, 2, 3, 4⟩]] 5 (by decide) (by decide)⟩

/-- Claim C10. Coordinate quantization is total over every `f64` input and
always lands in `[0, 4095]`: NaN passes through the clamp and the saturating
cast sends it to `0`, positive infinity clamps to `1` and maps to `4095`,
negative infinity clamps to `-1` and maps to `0`. -/
theorem xy_from_f64_total (f : F64) :
    XY.fromF64 F64.nan = 0 ∧ XY.fromF64 F64.inf = 4095 ∧
    XY.fromF64 F64.neginf = 0 ∧ XY.fromF64 f ≤ 4095 := by
  have hinf : XY.fromF64 F64.inf = 4095 := by
    show min 65535 (Int.toNat ⌊(4095 : ℚ) * (1 + 1) / 2⌋) = 4095
    norm_num
    rfl
  have hneg : XY.fromF64 F64.neginf = 0 := by
    show min 65535 (Int.toNat ⌊(4095 : ℚ) * (-1 + 1) / 2⌋) = 0
    norm_num
  refine ⟨rfl, hinf, hneg, ?_⟩
  cases f with
  | nan => exact Nat.zero_le _
  | inf => rw [hinf]
  | neginf => rw [hneg]; exact Nat.zero_le _
  | fin q => exact quantize_le_4095 q

end Lasercube
